import Mathlib

/-!
Shallow embedding of the r2b_fair dmClock-derived scheduler
(src/src/dmclock_server.h) and verification of the frozen claims.

Modelling conventions:
* C++ `double` time and tag values are modelled by `ℚ` (exact arithmetic);
  the IEEE infinities `max_tag` / `min_tag` are the `posInf` / `negInf`
  constructors of `TagVal`.
* Unsigned counters (`std::atomic_uint`) are modelled by `ℕ`; where the code
  relies on unsigned wrap-around (the `r_compensation += compensate` update)
  the arithmetic is done modulo 2^32 explicitly.
* The intrusive d-ary heaps hold `ClientRec`s by shared reference; here the
  scheduler state holds the client records in one list and each heap is a
  list of client ids whose head is the heap's top.  `promote` / `demote` /
  `adjust` restore the heap order; they are modelled by re-sorting the id
  list with the heap's comparator (`ClientCompare` from the source).
-/

/-- Tag/time value: a real (here rational) number, or one of the two IEEE
infinity sentinels `max_tag` (`posInf`) / `min_tag` (`negInf`) used by the
source for "rate is zero" fields. -/
inductive TagVal where
  | negInf : TagVal
  | fin : ℚ → TagVal
  | posInf : TagVal
deriving DecidableEq, Repr

namespace TagVal

/-- Strict `<` on tag values, with `negInf < fin q < posInf` (IEEE-like). -/
def blt : TagVal → TagVal → Bool
  | negInf, negInf => false
  | negInf, _ => true
  | fin _, negInf => false
  | fin a, fin b => a < b
  | fin _, posInf => true
  | posInf, _ => false

/-- `v ≤ t` for a finite time `t` (the C++ comparisons `tag <= now`). -/
def leTime : TagVal → ℚ → Bool
  | negInf, _ => true
  | fin q, t => q ≤ t
  | posInf, _ => false

/-- `v < max_tag`, the readiness checks `proportion < max_tag` etc. -/
def ltMax : TagVal → Bool
  | posInf => false
  | _ => true

/-- Add a finite rational to a tag value (IEEE: `±∞ + finite = ±∞`). -/
def addFin : TagVal → ℚ → TagVal
  | negInf, _ => negInf
  | fin q, d => fin (q + d)
  | posInf, _ => posInf

/-- `std::max(time, v)` for a finite `time` (IEEE: `max(t, -∞) = t`,
`max(t, +∞) = +∞`). -/
def maxTime (t : ℚ) : TagVal → TagVal
  | negInf => fin t
  | fin q => fin (max t q)
  | posInf => posInf

/-- `std::min` on tag values (`min(a,b) = if b < a then b else a`). -/
def minT (a b : TagVal) : TagVal := if blt b a then b else a

end TagVal

/-- The four client classes of the scheduler. -/
inductive ClientType where
  | R : ClientType
  | B : ClientType
  | A : ClientType
  | O : ClientType
deriving DecidableEq, Repr

/-- The `ClientInfo` record: the QoS parameters of a client.  The source stores the
precomputed inverses; here they are derived functions with the same
definition (`0.0 == rate ? 0.0 : 1.0 / rate`). -/
structure ClientInfo where
  reservation : ℚ
  weight : ℚ
  limit : ℚ
  client_type : ClientType
deriving DecidableEq, Repr

namespace ClientInfo

def reservation_inv (c : ClientInfo) : ℚ := if c.reservation = 0 then 0 else 1 / c.reservation

def weight_inv (c : ClientInfo) : ℚ := if c.weight = 0 then 0 else 1 / c.weight

def limit_inv (c : ClientInfo) : ℚ := if c.limit = 0 then 0 else 1 / c.limit

end ClientInfo

/-- The `RequestTag` record: the per-request scheduling tags. -/
structure RequestTag where
  reservation : TagVal
  proportion : TagVal
  limit : TagVal
  ready : Bool
  arrival : ℚ
deriving DecidableEq, Repr

/-- Source function `RequestTag::tag_calc`: if the rate inverse is 0 return
the extreme sentinel, else `max(time, prev + increment·dist)` where a zero
distance leaves the increment unscaled. -/
def tag_calc (time : ℚ) (prev : TagVal) (increment : ℚ) (dist_req_val : ℕ)
    (extreme_is_high : Bool) : TagVal :=
  if increment = 0 then
    (if extreme_is_high then .posInf else .negInf)
  else
    let inc : ℚ := if dist_req_val ≠ 0 then increment * dist_req_val else increment
    .maxTime time (prev.addFin inc)

/-- The tag-computing `RequestTag` constructor
`RequestTag(prev_tag, client, delta, rho, time, cost, anticipation_timeout)`.
The `cost` parameter is accepted by the source but unused (the line adding it
to the reservation tag is commented out), so it is omitted here. -/
def RequestTag.fromPrev (prev : RequestTag) (client : ClientInfo)
    (delta rho : ℕ) (time : ℚ) (anticipation_timeout : ℚ) : RequestTag :=
  let max_time : ℚ :=
    if time - anticipation_timeout < prev.arrival then time - anticipation_timeout else time
  { reservation := tag_calc max_time prev.reservation client.reservation_inv rho true
    proportion := tag_calc max_time prev.proportion client.weight_inv delta true
    limit := tag_calc max_time prev.limit client.limit_inv delta false
    ready := false
    arrival := time }

/-- Per-client record (`ClientRec`), restricted to the fields the dispatch
decision, window maintenance and janitor read or write.  `requests` keeps only
the `RequestTag` of each queued request: the opaque payload plays no role in
any claim. -/
structure Client where
  id : ℕ
  info : ClientInfo
  prop_delta : ℚ
  requests : List RequestTag
  resource : ℚ
  b_counter : ℕ
  b_break_limit_counter : ℕ
  deltar_counter : ℕ
  deltar_break_limit_counter : ℕ
  r0_counter : ℕ
  r0_break_limit_counter : ℕ
  be_counter : ℕ
  be_break_limit_counter : ℕ
  r_compensation : ℕ
  last_tick : ℕ
  idle : Bool
deriving DecidableEq, Repr

/-- The `ReadyOption` template parameter of `ClientCompare`. -/
inductive ReadyOption where
  | ignore : ReadyOption
  | lowers : ReadyOption
  | raises : ReadyOption
deriving DecidableEq, Repr

/-- Source comparator `ClientCompare<tag_field, ready_opt, use_prop_delta>`:
does `n1` precede `n2`?  A client with no pending request sorts after any
client with one; with `raises` a ready front request precedes, with `lowers`
a not-ready one precedes. -/
def clientCompare (field : RequestTag → TagVal) (ropt : ReadyOption)
    (use_prop_delta : Bool) (n1 n2 : Client) : Bool :=
  match n1.requests.head?, n2.requests.head? with
  | some t1, some t2 =>
    if ropt = .ignore ∨ t1.ready = t2.ready then
      if use_prop_delta then
        ((field t1).addFin n1.prop_delta).blt ((field t2).addFin n2.prop_delta)
      else
        (field t1).blt (field t2)
    else if ropt = .raises then t1.ready else t2.ready
  | some _, none => true
  | none, some _ => false
  | none, none => false

/-- Comparator of `resv_heap`: reservation tag, ready ignored. -/
def resvPrec : Client → Client → Bool := clientCompare (·.reservation) .ignore false

/-- Comparator of `deltar_heap`: proportion tag plus `prop_delta`, ready raises. -/
def deltarPrec : Client → Client → Bool := clientCompare (·.proportion) .raises true

/-- Comparator of `r_limit_heap`: limit tag, ready lowers. -/
def rLimitPrec : Client → Client → Bool := clientCompare (·.limit) .lowers false

/-- Comparator of `limit_heap`: limit tag, ready lowers. -/
def limitPrec : Client → Client → Bool := clientCompare (·.limit) .lowers false

/-- Comparator of `burst_heap`: proportion tag plus `prop_delta`, ready raises. -/
def burstPrec : Client → Client → Bool := clientCompare (·.proportion) .raises true

/-- Comparator of `best_heap`: proportion tag plus `prop_delta`, ready raises. -/
def bestPrec : Client → Client → Bool := clientCompare (·.proportion) .raises true

/-- Comparator of `best_limit_heap`: limit tag, ready lowers. -/
def bestLimitPrec : Client → Client → Bool := clientCompare (·.limit) .lowers false

/-- Scheduler state: the client map, the seven heaps (as id lists whose head
is the heap top), the configuration the dispatch ladder reads, and the
janitor bookkeeping (`tick`, `clean_mark_points`). -/
structure SchedState where
  clients : List Client
  resv_heap : List ℕ
  deltar_heap : List ℕ
  r_limit_heap : List ℕ
  limit_heap : List ℕ
  burst_heap : List ℕ
  best_heap : List ℕ
  best_limit_heap : List ℕ
  allow_limit_break : Bool
  win_start : ℚ
  win_size : ℚ
  tick : ℕ
  mark_points : List (ℚ × ℕ)
deriving DecidableEq, Repr

/-- Look a client record up by id (the heaps hold `ClientRec`s by shared
reference; here they hold ids resolved through the client list). -/
def lookupClient (s : SchedState) (cid : ℕ) : Option Client :=
  s.clients.find? (fun c => c.id == cid)

/-- Apply `f` to the client with id `cid` (shared-reference mutation). -/
def updateClient (s : SchedState) (cid : ℕ) (f : Client → Client) : SchedState :=
  { s with clients := s.clients.map (fun c => if c.id == cid then f c else c) }

/-- Lift a client comparator to heap entries (ids); dangling ids sort last. -/
def idPrec (s : SchedState) (prec : Client → Client → Bool) (a b : ℕ) : Bool :=
  match lookupClient s a, lookupClient s b with
  | some ca, some cb => prec ca cb
  | some _, none => true
  | none, _ => false

/-- Ordered insert for the model's heap restoration. -/
def insertByPrec (p : ℕ → ℕ → Bool) (a : ℕ) : List ℕ → List ℕ
  | [] => [a]
  | b :: l => if p a b then a :: b :: l else b :: insertByPrec p a l

/-- Restore a heap after a tag/ready mutation (`promote`/`demote`/`adjust`):
re-sort the id list by the heap's comparator so the head is again a top
element under `ClientCompare`. -/
def sortHeap (s : SchedState) (prec : Client → Client → Bool) (h : List ℕ) : List ℕ :=
  h.foldr (insertByPrec (idPrec s prec)) []

/-- The top of a heap together with its client record and front request tag;
`none` when the heap is empty or its top has no pending request (every
dispatch rule and walk requires `has_request()`). -/
def heapTopFront (s : SchedState) (heap : List ℕ) : Option (ℕ × Client × RequestTag) :=
  match heap.head? with
  | none => none
  | some cid =>
    match lookupClient s cid with
    | none => none
    | some c =>
      match c.requests.head? with
      | none => none
      | some t => some (cid, c, t)

/-- Set the `ready` flag of the client's front request
(`limits->next_request().tag.ready = true`). -/
def setFrontReady (s : SchedState) (cid : ℕ) : SchedState :=
  updateClient s cid (fun c =>
    { c with requests :=
        match c.requests with
        | [] => []
        | t :: rest => { t with ready := true } :: rest })

/-- One iteration of the `limit_heap` walk (dispatch rule 2): if the top has
a pending, not-yet-ready request whose limit tag has been reached, mark it
ready, promote it in `burst_heap` and demote it in `limit_heap`.  Returns
`none` when the loop condition fails. -/
def limitWalkStep (s : SchedState) (now : ℚ) : Option SchedState :=
  match heapTopFront s s.limit_heap with
  | none => none
  | some (cid, _, t) =>
    if !t.ready && t.limit.leTime now then
      let s1 := setFrontReady s cid
      let s2 := { s1 with burst_heap := sortHeap s1 burstPrec s1.burst_heap }
      some { s2 with limit_heap := sortHeap s2 limitPrec s2.limit_heap }
    else none

/-- Fuel-bounded iteration of a walk step.  Each successful step turns one
heap member's not-ready front request ready and never changes heap
membership, so a fuel equal to the heap's length is enough for the loop to
reach its natural exit, exactly as the C++ `while` does. -/
def walkLoop (step : SchedState → ℚ → Option SchedState) :
    ℕ → SchedState → ℚ → SchedState
  | 0, s, _ => s
  | fuel + 1, s, now =>
    match step s now with
    | none => s
    | some s1 => walkLoop step fuel s1 now

/-- Dispatch rule 2: walk `limit_heap` promoting every reached top into
ready state. -/
def walk_limit (s : SchedState) (now : ℚ) : SchedState :=
  walkLoop limitWalkStep s.limit_heap.length s now

/-- One iteration of the `r_limit_heap` walk (dispatch rule 4): promote in
`deltar_heap`, demote in `r_limit_heap`. -/
def rLimitWalkStep (s : SchedState) (now : ℚ) : Option SchedState :=
  match heapTopFront s s.r_limit_heap with
  | none => none
  | some (cid, _, t) =>
    if !t.ready && t.limit.leTime now then
      let s1 := setFrontReady s cid
      let s2 := { s1 with deltar_heap := sortHeap s1 deltarPrec s1.deltar_heap }
      some { s2 with r_limit_heap := sortHeap s2 rLimitPrec s2.r_limit_heap }
    else none

/-- Dispatch rule 4: walk `r_limit_heap`. -/
def walk_r_limit (s : SchedState) (now : ℚ) : SchedState :=
  walkLoop rLimitWalkStep s.r_limit_heap.length s now

/-- One iteration of the `best_limit_heap` walk (dispatch rule 6): promote in
`best_heap`, demote in `best_limit_heap`. -/
def bestLimitWalkStep (s : SchedState) (now : ℚ) : Option SchedState :=
  match heapTopFront s s.best_limit_heap with
  | none => none
  | some (cid, _, t) =>
    if !t.ready && t.limit.leTime now then
      let s1 := setFrontReady s cid
      let s2 := { s1 with best_heap := sortHeap s1 bestPrec s1.best_heap }
      some { s2 with best_limit_heap := sortHeap s2 bestLimitPrec s2.best_limit_heap }
    else none

/-- Dispatch rule 6: walk `best_limit_heap`. -/
def walk_best_limit (s : SchedState) (now : ℚ) : SchedState :=
  walkLoop bestLimitWalkStep s.best_limit_heap.length s now

/-- Which heap the next request is popped from (`HeapId`). -/
inductive HeapId where
  | reservation : HeapId
  | deltar : HeapId
  | ready : HeapId
  | burst : HeapId
  | prop : HeapId
  | best_effort : HeapId
deriving DecidableEq, Repr

/-- The result variants of `do_next_request` (`NextReq`). -/
inductive NextReq where
  | returning : HeapId → NextReq
  | future : TagVal → NextReq
  | none : NextReq
deriving DecidableEq, Repr

/-- Does this result dispatch a request now? -/
def NextReq.isReturning : NextReq → Bool
  | .returning _ => true
  | _ => false

/-- Dispatch rule 1: `resv_heap` top has a pending request whose reservation
tag has been reached → count it on `r0_counter` and dispatch it. -/
def rule_resv (s : SchedState) (now : ℚ) : Option (SchedState × NextReq) :=
  match heapTopFront s s.resv_heap with
  | none => none
  | some (cid, _, t) =>
    if t.reservation.leTime now then
      some (updateClient s cid (fun c => { c with r0_counter := c.r0_counter + 1 }),
            .returning .reservation)
    else none

/-- Dispatch rule 3: `burst_heap` top is within its burst budget
(`b_counter < max(resource, 0)`), ready and has a finite proportion tag. -/
def rule_burst (s : SchedState) : Option (SchedState × NextReq) :=
  match heapTopFront s s.burst_heap with
  | none => none
  | some (cid, c, t) =>
    if ((c.b_counter : ℚ) < max c.resource 0) ∧ t.ready ∧ t.proportion.ltMax then
      some (updateClient s cid (fun c => { c with b_counter := c.b_counter + 1 }),
            .returning .burst)
    else none

/-- Dispatch rule 5: `deltar_heap` top is within its surplus budget
(`deltar_counter < max(resource - reservation·win_size, 0)`), ready and has a
finite proportion tag. -/
def rule_deltar (s : SchedState) : Option (SchedState × NextReq) :=
  match heapTopFront s s.deltar_heap with
  | none => none
  | some (cid, c, t) =>
    if ((c.deltar_counter : ℚ) < max (c.resource - c.info.reservation * s.win_size) 0)
        ∧ t.ready ∧ t.proportion.ltMax then
      some (updateClient s cid (fun c => { c with deltar_counter := c.deltar_counter + 1 }),
            .returning .deltar)
    else none

/-- Dispatch rule 7: `best_heap` top is ready with a finite proportion tag. -/
def rule_best (s : SchedState) : Option (SchedState × NextReq) :=
  match heapTopFront s s.best_heap with
  | none => none
  | some (cid, _, t) =>
    if t.ready ∧ t.proportion.ltMax then
      some (updateClient s cid (fun c => { c with be_counter := c.be_counter + 1 }),
            .returning .best_effort)
    else none

/-- Limit-break attempt on `burst_heap`: top has a request with a finite
proportion tag → count on `b_break_limit_counter` and dispatch. -/
def break_burst (s : SchedState) : Option (SchedState × NextReq) :=
  match heapTopFront s s.burst_heap with
  | none => none
  | some (cid, _, t) =>
    if t.proportion.ltMax then
      some (updateClient s cid
              (fun c => { c with b_break_limit_counter := c.b_break_limit_counter + 1 }),
            .returning .burst)
    else none

/-- Limit-break attempt on `best_heap`. -/
def break_best (s : SchedState) : Option (SchedState × NextReq) :=
  match heapTopFront s s.best_heap with
  | none => none
  | some (cid, _, t) =>
    if t.proportion.ltMax then
      some (updateClient s cid
              (fun c => { c with be_break_limit_counter := c.be_break_limit_counter + 1 }),
            .returning .best_effort)
    else none

/-- Limit-break attempt on `deltar_heap`. -/
def break_deltar (s : SchedState) : Option (SchedState × NextReq) :=
  match heapTopFront s s.deltar_heap with
  | none => none
  | some (cid, _, t) =>
    if t.proportion.ltMax then
      some (updateClient s cid
              (fun c => { c with deltar_break_limit_counter := c.deltar_break_limit_counter + 1 }),
            .returning .deltar)
    else none

/-- Limit-break attempt on `resv_heap` (requires a finite reservation tag). -/
def break_resv (s : SchedState) : Option (SchedState × NextReq) :=
  match heapTopFront s s.resv_heap with
  | none => none
  | some (cid, _, t) =>
    if t.reservation.ltMax then
      some (updateClient s cid
              (fun c => { c with r0_break_limit_counter := c.r0_break_limit_counter + 1 }),
            .returning .reservation)
    else none

/-- The limit-break stage (rule 8): burst, then best, then deltar, then
reservation, in the source's order. -/
def break_chain (s : SchedState) : Option (SchedState × NextReq) :=
  match break_burst s with
  | some r => some r
  | none =>
    match break_best s with
    | some r => some r
    | none =>
      match break_deltar s with
      | some r => some r
      | none => break_resv s

/-- Source helper `min_not_0_time`: ignore a candidate equal to `TimeZero`, otherwise take
the minimum. -/
def min_not_0_time (current possible : TagVal) : TagVal :=
  if possible = .fin 0 then current else TagVal.minT current possible

/-- The final stage of `do_next_request` (rule 9): fold `min_not_0_time`
over the top reservation tag of `resv_heap`, the top limit tag of
`r_limit_heap` and of `limit_heap` (tops with a pending request only),
starting from `TimeMax`; return `Future` if the result is below the
sentinel, else `None`. -/
def next_call_result (s : SchedState) : NextReq :=
  let nc : TagVal := .posInf
  let nc :=
    match heapTopFront s s.resv_heap with
    | some (_, _, t) => min_not_0_time nc t.reservation
    | none => nc
  let nc :=
    match heapTopFront s s.r_limit_heap with
    | some (_, _, t) => min_not_0_time nc t.limit
    | none => nc
  let nc :=
    match heapTopFront s s.limit_heap with
    | some (_, _, t) => min_not_0_time nc t.limit
    | none => nc
  if nc.blt .posInf then .future nc else .none

/-- The dispatch ladder of `do_next_request` after window maintenance: rules
1 through 9 in source order, stopping at the first rule that fires. -/
def dispatch_ladder (s : SchedState) (now : ℚ) : SchedState × NextReq :=
  match rule_resv s now with
  | some r => r
  | none =>
    let s1 := walk_limit s now
    match rule_burst s1 with
    | some r => r
    | none =>
      let s2 := walk_r_limit s1 now
      match rule_deltar s2 with
      | some r => r
      | none =>
        let s3 := walk_best_limit s2 now
        match rule_best s3 with
        | some r => r
        | none =>
          if s3.allow_limit_break then
            match break_chain s3 with
            | some r => r
            | none => (s3, next_call_result s3)
          else (s3, next_call_result s3)

/-- Full `do_next_request(now)`: the all-heaps-empty early exit, then window
maintenance (behind a `try_lock`, so it runs only when the boundary has been
reached and the lock was obtained — `winLock` models the try-lock outcome;
`winStep` is the window-maintenance pass over the client map, modelled
per-client by `window_client_step` below), then the dispatch ladder. -/
def do_next_request (winStep : SchedState → SchedState) (winLock : Bool)
    (s : SchedState) (now : ℚ) : SchedState × NextReq :=
  if s.resv_heap.isEmpty && s.burst_heap.isEmpty && s.best_heap.isEmpty then
    (s, .none)
  else
    let s0 := if (now - s.win_start ≥ s.win_size) ∧ winLock then winStep s else s
    dispatch_ladder s0 now

/-- C++ floating-point-to-integer conversion: truncation toward zero. -/
def ratTrunc (q : ℚ) : ℤ := if 0 ≤ q then ⌊q⌋ else ⌈q⌉

/-- Modulus of the 32-bit unsigned counters. -/
def uintMod : ℤ := 2 ^ 32

/-- The per-window reservation-compensation update of `do_next_request`'s
window-maintenance block: when the window's served reservation count reached
at least 80% of `reservation · win_size`, add the (truncated) per-second
deficit to `r_compensation` (an unsigned counter, so the addition wraps
modulo 2^32 when the deficit is negative) and clamp from above at
`reservation · 0.1` (converted back to unsigned by truncation).  The source's
`if (r_compensation < 0)` reset is dead code on an unsigned counter and has
no counterpart here.  Otherwise `r_compensation` is left unchanged. -/
def comp_update (info : ClientInfo) (win_size : ℚ) (r0_counter : ℕ) (r_comp : ℕ) : ℕ :=
  if (r0_counter : ℚ) ≥ info.reservation * win_size * (8 / 10) then
    let compensate : ℤ :=
      ratTrunc ((info.reservation * win_size - (r0_counter : ℚ)) / win_size)
    let c1 : ℕ := (((r_comp : ℤ) + compensate) % uintMod).toNat
    if (c1 : ℚ) > info.reservation * (1 / 10) then
      (ratTrunc (info.reservation * (1 / 10))).toNat
    else c1
  else r_comp

/-- Projection of one client's window-boundary state: the fields the
window-maintenance block reads and writes for the compensation claims. -/
structure WinClientState where
  info : ClientInfo
  r0_counter : ℕ
  r_comp : ℕ
deriving DecidableEq, Repr

/-- One client's share of the window-maintenance pass: the freshly fetched
`ClientInfo` replaces the cached one, then — for a client whose (new) type is
R — the compensation update runs on the window's `r0_counter`, and finally the
per-window counters are reset.  (Heap migration and the telemetry line are
outside this per-client projection.) -/
def window_client_step (new_info : ClientInfo) (win_size : ℚ) (c : WinClientState) :
    WinClientState :=
  let comp1 :=
    if new_info.client_type = .R then comp_update new_info win_size c.r0_counter c.r_comp
    else c.r_comp
  { info := new_info, r0_counter := 0, r_comp := comp1 }

/-- The compensation invariant of spec (I4), read against the client's
current reservation rate: `r_compensation ∈ [0, 0.1·reservation]` (the lower
bound is inherent to the unsigned counter). -/
def comp_inv (c : WinClientState) : Prop :=
  0 ≤ c.r_comp ∧ (c.r_comp : ℚ) ≤ c.info.reservation * (1 / 10)

instance (c : WinClientState) : Decidable (comp_inv c) := by
  unfold comp_inv; infer_instance

/-- `do_clean`'s erase-point loop: pop every mark point at or before the
cutoff, remembering the tick of the last one popped. -/
def erase_point_loop : List (ℚ × ℕ) → ℚ → ℕ → ℕ × List (ℚ × ℕ)
  | [], _, acc => (acc, [])
  | (t, c) :: rest, cutoff, acc =>
    if t ≤ cutoff then erase_point_loop rest cutoff c else (acc, (t, c) :: rest)

/-- `do_clean`'s idle-point loop: the tick of the last mark point at or
before the cutoff, stopping at the first newer one. -/
def idle_point_loop : List (ℚ × ℕ) → ℚ → ℕ → ℕ
  | [], _, acc => acc
  | (t, c) :: rest, cutoff, acc =>
    if t ≤ cutoff then idle_point_loop rest cutoff c else acc

/-- Remove a client id from a heap (`delete_from_heap` via the stored
handle; the model removes by id). -/
def removeFromHeap (h : List ℕ) (cid : ℕ) : List ℕ := h.filter (fun x => x ≠ cid)

/-- Source function `delete_from_heaps`: remove the client from the heaps its class lives
in. -/
def delete_from_heaps (s : SchedState) (c : Client) : SchedState :=
  match c.info.client_type with
  | .R => { s with resv_heap := removeFromHeap s.resv_heap c.id
                   deltar_heap := removeFromHeap s.deltar_heap c.id
                   r_limit_heap := removeFromHeap s.r_limit_heap c.id }
  | .B => { s with limit_heap := removeFromHeap s.limit_heap c.id
                   burst_heap := removeFromHeap s.burst_heap c.id }
  | _ => { s with best_heap := removeFromHeap s.best_heap c.id
                  best_limit_heap := removeFromHeap s.best_limit_heap c.id }

/-- Should this client be erased by `do_clean`
(`erase_point && last_tick <= erase_point`)? -/
def erasedByClean (erase_point : ℕ) (c : Client) : Bool :=
  erase_point != 0 && c.last_tick ≤ erase_point

/-- The erase point of a `do_clean` pass: the mark-point loop runs on the
deque with the fresh `(now, tick)` mark appended. -/
def cleanEp (erase_age now : ℚ) (s : SchedState) : ℕ :=
  (erase_point_loop (s.mark_points ++ [(now, s.tick)]) (now - erase_age) 0).1

/-- The mark points remaining after the erase-point loop popped the aged
ones. -/
def cleanMks (erase_age now : ℚ) (s : SchedState) : List (ℚ × ℕ) :=
  (erase_point_loop (s.mark_points ++ [(now, s.tick)]) (now - erase_age) 0).2

/-- The idle point of a `do_clean` pass, computed on the popped deque. -/
def cleanIp (erase_age idle_age now : ℚ) (s : SchedState) : ℕ :=
  idle_point_loop (cleanMks erase_age now s) (now - idle_age) 0

/-- The per-client action of `do_clean`'s map walk: erased clients leave the
map, idle-aged clients are marked idle, the rest are untouched. -/
def cleanKeep (ep ip : ℕ) (c : Client) : Option Client :=
  if erasedByClean ep c then none
  else if ip != 0 && c.last_tick ≤ ip then some { c with idle := true }
  else some c

/-- The janitor pass `do_clean`, run every `check_time`: append the current
`(now, tick)` mark point, compute the erase and idle points from the aged
mark points, then erase every client whose `last_tick` is at or before the
erase point (from its heaps, the client map and the name table — the name
table and the `total_wgt` bookkeeping are not modelled) and mark idle every
remaining client whose `last_tick` is at or before the idle point. -/
def do_clean (erase_age idle_age : ℚ) (now : ℚ) (s : SchedState) : SchedState :=
  let ep := cleanEp erase_age now s
  let ip := cleanIp erase_age idle_age now s
  let s1 := { s with mark_points := cleanMks erase_age now s }
  if ep > 0 ∨ ip > 0 then
    let erased := s1.clients.filter (erasedByClean ep)
    let s2 := erased.foldl delete_from_heaps s1
    { s2 with clients := s1.clients.filterMap (cleanKeep ep ip) }
  else s1

/-- The scheduler's total queued-request count.  `request_count()` in the
source sums the FIFO lengths over `resv_heap`, `burst_heap` and `best_heap`;
since every client lives in exactly one of those three heaps (by class), this
equals the sum over the client map, which is what the model sums. -/
def total_requests (s : SchedState) : ℕ :=
  (s.clients.map (fun c => c.requests.length)).sum

lemma tag_calc_of_inc_ne_zero (time : ℚ) (prev : TagVal) (inc : ℚ) (dist : ℕ) (eh : Bool)
    (h : inc ≠ 0) :
    tag_calc time prev inc dist eh =
      .maxTime time (prev.addFin (inc * ((max dist 1 : ℕ) : ℚ))) := by
  unfold tag_calc
  rw [if_neg h]
  rcases Nat.eq_zero_or_pos dist with hd | hd
  · subst hd; simp
  · have h1 : dist ≠ 0 := Nat.pos_iff_ne_zero.mp hd
    have h2 : max dist 1 = dist := Nat.max_eq_left hd
    simp [h1, h2]

lemma reservation_inv_ne_zero (info : ClientInfo) (h : info.reservation ≠ 0) :
    info.reservation_inv ≠ 0 := by
  unfold ClientInfo.reservation_inv
  rw [if_neg h]
  exact one_div_ne_zero h

lemma weight_inv_ne_zero (info : ClientInfo) (h : info.weight ≠ 0) :
    info.weight_inv ≠ 0 := by
  unfold ClientInfo.weight_inv
  rw [if_neg h]
  exact one_div_ne_zero h

lemma limit_inv_ne_zero (info : ClientInfo) (h : info.limit ≠ 0) :
    info.limit_inv ≠ 0 := by
  unfold ClientInfo.limit_inv
  rw [if_neg h]
  exact one_div_ne_zero h

/-- C2: for every new request tag computed for a client with a nonzero rate
for a given field, the new field value is
`max(t', P.field + d·inv_rate)` where `d = 0` is treated as `d = 1` and
`t' = t − anticipation_timeout` when `t − anticipation_timeout < P.arrival`,
else `t' = t`. -/
theorem c2_tag_recurrence (prev : RequestTag) (info : ClientInfo) (delta rho : ℕ)
    (t ant : ℚ) :
    (info.reservation ≠ 0 →
      (RequestTag.fromPrev prev info delta rho t ant).reservation =
        .maxTime (if t - ant < prev.arrival then t - ant else t)
          (prev.reservation.addFin (info.reservation_inv * ((max rho 1 : ℕ) : ℚ)))) ∧
    (info.weight ≠ 0 →
      (RequestTag.fromPrev prev info delta rho t ant).proportion =
        .maxTime (if t - ant < prev.arrival then t - ant else t)
          (prev.proportion.addFin (info.weight_inv * ((max delta 1 : ℕ) : ℚ)))) ∧
    (info.limit ≠ 0 →
      (RequestTag.fromPrev prev info delta rho t ant).limit =
        .maxTime (if t - ant < prev.arrival then t - ant else t)
          (prev.limit.addFin (info.limit_inv * ((max delta 1 : ℕ) : ℚ)))) := by
  refine ⟨fun h => ?_, fun h => ?_, fun h => ?_⟩
  · simp only [RequestTag.fromPrev]
    rw [tag_calc_of_inc_ne_zero _ _ _ _ _ (reservation_inv_ne_zero info h)]
  · simp only [RequestTag.fromPrev]
    rw [tag_calc_of_inc_ne_zero _ _ _ _ _ (weight_inv_ne_zero info h)]
  · simp only [RequestTag.fromPrev]
    rw [tag_calc_of_inc_ne_zero _ _ _ _ _ (limit_inv_ne_zero info h)]

def c2w_prev : RequestTag := ⟨.fin 1, .fin 2, .fin 3, false, 0⟩

def c2w_info : ClientInfo := ⟨2, 4, 5, .R⟩

/-- Witness for C2 at a concrete client and tag. -/
theorem c2_tag_recurrence_witness :
    c2w_info.reservation ≠ 0 ∧
    (RequestTag.fromPrev c2w_prev c2w_info 3 0 10 0).reservation =
      .maxTime (if (10 : ℚ) - 0 < c2w_prev.arrival then 10 - 0 else 10)
        (c2w_prev.reservation.addFin (c2w_info.reservation_inv * ((max 0 1 : ℕ) : ℚ))) :=
  ⟨by norm_num [c2w_info], (c2_tag_recurrence c2w_prev c2w_info 3 0 10 0).1 (by norm_num [c2w_info])⟩

def c3_prev : RequestTag := ⟨.fin 0, .fin 0, .fin 0, false, 0⟩

def c3_info : ClientInfo := ⟨1, 1, 0, .A⟩

/-- Counterexample to C3: for a client whose limit rate is 0 the constructed
tag's limit field is not the positive-infinity sentinel (it is `min_tag`,
the negative one). -/
theorem c3_limit_zero_counterexample :
    c3_info.limit = 0 ∧
    (RequestTag.fromPrev c3_prev c3_info 1 1 5 0).limit ≠ TagVal.posInf := by
  refine ⟨rfl, ?_⟩
  have h : (RequestTag.fromPrev c3_prev c3_info 1 1 5 0).limit = .negInf := by
    norm_num [RequestTag.fromPrev, tag_calc, ClientInfo.limit_inv, c3_prev, c3_info]
  rw [h]
  decide

/-- C3 (amended): a zero reservation or weight rate pins the corresponding
field to `+∞` (`max_tag`), but a zero limit rate pins the limit field to
`−∞` (`min_tag`), because `tag_calc` is called with `extreme_is_high =
false` for the limit field. -/
theorem c3_zero_rate_sentinels (prev : RequestTag) (info : ClientInfo) (delta rho : ℕ)
    (t ant : ℚ) :
    (info.reservation = 0 →
      (RequestTag.fromPrev prev info delta rho t ant).reservation = .posInf) ∧
    (info.weight = 0 →
      (RequestTag.fromPrev prev info delta rho t ant).proportion = .posInf) ∧
    (info.limit = 0 →
      (RequestTag.fromPrev prev info delta rho t ant).limit = .negInf) := by
  refine ⟨fun h => ?_, fun h => ?_, fun h => ?_⟩ <;>
    simp [RequestTag.fromPrev, tag_calc, ClientInfo.reservation_inv, ClientInfo.weight_inv,
      ClientInfo.limit_inv, h]

def c3w_info : ClientInfo := ⟨0, 1, 0, .B⟩

/-- Witness for the amended C3 at a concrete client. -/
theorem c3_zero_rate_sentinels_witness :
    (RequestTag.fromPrev c3_prev c3w_info 1 1 5 0).reservation = .posInf ∧
    (RequestTag.fromPrev c3_prev c3w_info 1 1 5 0).limit = .negInf :=
  ⟨(c3_zero_rate_sentinels c3_prev c3w_info 1 1 5 0).1 rfl,
   (c3_zero_rate_sentinels c3_prev c3w_info 1 1 5 0).2.2 rfl⟩

def c4_info : ClientInfo := ⟨10, 1, 10, .R⟩

/-- Counterexample to C4: a client at exactly 80% of
`reservation·win_size` (not strictly below it) has its `r_compensation`
changed from 0 to 1 at the window boundary. -/
theorem c4_threshold_counterexample :
    ¬ ((8 : ℚ) < c4_info.reservation * 1 * (8 / 10)) ∧ comp_update c4_info 1 8 0 = 1 := by
  constructor
  · norm_num [c4_info]
  · norm_num [comp_update, ratTrunc, uintMod, c4_info]

/-- C4 (amended): at a window boundary `r_compensation` is updated only for
an R client whose served count `r0_counter` is at least
`0.8·reservation·win_size`; for clients strictly below that threshold it is
left unchanged. -/
theorem c4_below_threshold_unchanged (info : ClientInfo) (win_size : ℚ) (r0 comp : ℕ)
    (h : (r0 : ℚ) < info.reservation * win_size * (8 / 10)) :
    comp_update info win_size r0 comp = comp := by
  unfold comp_update
  rw [if_neg (not_le.mpr h)]

/-- Witness for the amended C4 at concrete counter values. -/
theorem c4_below_threshold_unchanged_witness :
    ((7 : ℚ) < c4_info.reservation * 1 * (8 / 10)) ∧ comp_update c4_info 1 7 5 = 5 :=
  ⟨by norm_num [c4_info], c4_below_threshold_unchanged c4_info 1 7 5 (by norm_num [c4_info])⟩

def c5_old : WinClientState := ⟨⟨100, 1, 100, .R⟩, 0, 10⟩

def c5_new_info : ClientInfo := ⟨10, 1, 10, .R⟩

/-- Counterexample to C5: a state satisfying
`r_compensation ≤ 0.1·reservation` before the window boundary violates it
after, when the freshly fetched `ClientInfo` lowers the reservation rate and
the client is below the 80% threshold (so the clamp never runs). -/
theorem c5_comp_inv_counterexample :
    comp_inv c5_old ∧ ¬ comp_inv (window_client_step c5_new_info 1 c5_old) := by
  constructor
  · norm_num [comp_inv, c5_old]
  · norm_num [comp_inv, window_client_step, comp_update, c5_old, c5_new_info]

lemma ratTrunc_toNat_le (q : ℚ) (hq : 0 ≤ q) : (((ratTrunc q).toNat : ℚ)) ≤ q := by
  unfold ratTrunc
  rw [if_pos hq]
  have h0 : 0 ≤ ⌊q⌋ := Int.floor_nonneg.mpr hq
  have h1 : ((⌊q⌋.toNat : ℤ) : ℚ) = ((⌊q⌋ : ℤ) : ℚ) := by rw [Int.toNat_of_nonneg h0]
  calc ((⌊q⌋.toNat : ℚ)) = ((⌊q⌋ : ℤ) : ℚ) := by exact_mod_cast h1
    _ ≤ q := Int.floor_le q

lemma comp_update_le (info : ClientInfo) (win_size : ℚ) (r0 comp : ℕ)
    (hres : 0 ≤ info.reservation) (hcomp : (comp : ℚ) ≤ info.reservation * (1 / 10)) :
    ((comp_update info win_size r0 comp : ℕ) : ℚ) ≤ info.reservation * (1 / 10) := by
  simp only [comp_update]
  split_ifs with h1 h2
  · exact ratTrunc_toNat_le _ (by positivity)
  · exact le_of_not_lt h2
  · exact hcomp

/-- C5 (amended): `r_compensation ≥ 0` always (unsigned counter), and
`r_compensation ≤ 0.1·reservation` is preserved by the window-boundary
update whenever the client's `ClientInfo` is unchanged at the boundary. -/
theorem c5_comp_inv_preserved (c : WinClientState) (win_size : ℚ)
    (hres : 0 ≤ c.info.reservation) (hinv : comp_inv c) :
    comp_inv (window_client_step c.info win_size c) := by
  refine ⟨Nat.zero_le _, ?_⟩
  show (((if c.info.client_type = ClientType.R then
      comp_update c.info win_size c.r0_counter c.r_comp else c.r_comp) : ℕ) : ℚ) ≤
    c.info.reservation * (1 / 10)
  by_cases hR : c.info.client_type = ClientType.R
  · rw [if_pos hR]
    exact comp_update_le c.info win_size c.r0_counter c.r_comp hres hinv.2
  · rw [if_neg hR]
    exact hinv.2

def c5w : WinClientState := ⟨⟨10, 1, 10, .R⟩, 9, 1⟩

/-- Witness for the amended C5 at a concrete window state. -/
theorem c5_comp_inv_preserved_witness :
    comp_inv c5w ∧ comp_inv (window_client_step c5w.info 1 c5w) :=
  ⟨by norm_num [comp_inv, c5w],
   c5_comp_inv_preserved c5w 1 (by norm_num [c5w]) (by norm_num [comp_inv, c5w])⟩

/-- C1: for every call to `next_request(now)` (no window roll-over running)
in which `resv_heap` is non-empty and its top client has a pending request
with `tag.reservation ≤ now`, the dispatch decision returns
`Returning(reservation)` — rule 1 fires before any other rule — and the only
state change is that this client's `r0_counter` is incremented by exactly
one. -/
theorem c1_reservation_rule_first (winStep : SchedState → SchedState) (winLock : Bool)
    (s : SchedState) (now : ℚ) (cid : ℕ) (c : Client) (t : RequestTag)
    (htop : s.resv_heap.head? = some cid)
    (hc : lookupClient s cid = some c)
    (hreq : c.requests.head? = some t)
    (hr : t.reservation.leTime now = true)
    (hwin : now - s.win_start < s.win_size) :
    do_next_request winStep winLock s now =
      (updateClient s cid (fun d => { d with r0_counter := d.r0_counter + 1 }),
       .returning .reservation) := by
  have hne : (s.resv_heap.isEmpty && s.burst_heap.isEmpty && s.best_heap.isEmpty) = false := by
    cases hh : s.resv_heap with
    | nil => rw [hh] at htop; simp at htop
    | cons a l => simp [hh]
  have hfront : heapTopFront s s.resv_heap = some (cid, c, t) := by
    simp only [heapTopFront, htop, hc, hreq]
  have hrule : rule_resv s now =
      some (updateClient s cid (fun d => { d with r0_counter := d.r0_counter + 1 }),
            .returning .reservation) := by
    simp only [rule_resv, hfront, hr, if_true]
  unfold do_next_request
  rw [if_neg (by simp [hne])]
  rw [if_neg (fun h => absurd h.1 (not_le.mpr hwin))]
  simp only [dispatch_ladder, hrule]

def c1w_tag : RequestTag := ⟨.fin 1, .posInf, .fin 1, false, 0⟩

def c1w_client : Client :=
  { id := 0, info := ⟨10, 0, 10, .R⟩, prop_delta := 0, requests := [c1w_tag], resource := 0,
    b_counter := 0, b_break_limit_counter := 0, deltar_counter := 0,
    deltar_break_limit_counter := 0, r0_counter := 3, r0_break_limit_counter := 0,
    be_counter := 0, be_break_limit_counter := 0, r_compensation := 0, last_tick := 0,
    idle := false }

def c1w_state : SchedState :=
  { clients := [c1w_client], resv_heap := [0], deltar_heap := [0], r_limit_heap := [0],
    limit_heap := [], burst_heap := [], best_heap := [], best_limit_heap := [],
    allow_limit_break := false, win_start := 0, win_size := 30, tick := 0, mark_points := [] }

/-- Witness for C1 at a concrete one-client state. -/
theorem c1_reservation_rule_first_witness :
    do_next_request id false c1w_state 10 =
      (updateClient c1w_state 0 (fun d => { d with r0_counter := d.r0_counter + 1 }),
       .returning .reservation) :=
  c1_reservation_rule_first id false c1w_state 10 0 c1w_client c1w_tag rfl
    (by norm_num [lookupClient, c1w_state, c1w_client])
    rfl (by norm_num [c1w_tag, TagVal.leTime]) (by norm_num [c1w_state])

lemma limitWalkStep_pres (s : SchedState) (now : ℚ) (s1 : SchedState)
    (h : limitWalkStep s now = some s1) :
    s1.allow_limit_break = s.allow_limit_break ∧ s1.win_size = s.win_size := by
  unfold limitWalkStep at h
  rcases htf : heapTopFront s s.limit_heap with _ | ⟨cid, c, t⟩ <;> simp only [htf] at h
  · cases h
  · split_ifs at h with hcond
    injection h with h'
    subst h'
    simp [setFrontReady, updateClient]

lemma rLimitWalkStep_pres (s : SchedState) (now : ℚ) (s1 : SchedState)
    (h : rLimitWalkStep s now = some s1) :
    s1.allow_limit_break = s.allow_limit_break ∧ s1.win_size = s.win_size := by
  unfold rLimitWalkStep at h
  rcases htf : heapTopFront s s.r_limit_heap with _ | ⟨cid, c, t⟩ <;> simp only [htf] at h
  · cases h
  · split_ifs at h with hcond
    injection h with h'
    subst h'
    simp [setFrontReady, updateClient]

lemma bestLimitWalkStep_pres (s : SchedState) (now : ℚ) (s1 : SchedState)
    (h : bestLimitWalkStep s now = some s1) :
    s1.allow_limit_break = s.allow_limit_break ∧ s1.win_size = s.win_size := by
  unfold bestLimitWalkStep at h
  rcases htf : heapTopFront s s.best_limit_heap with _ | ⟨cid, c, t⟩ <;> simp only [htf] at h
  · cases h
  · split_ifs at h with hcond
    injection h with h'
    subst h'
    simp [setFrontReady, updateClient]

lemma walkLoop_pres (step : SchedState → ℚ → Option SchedState)
    (hstep : ∀ s now s1, step s now = some s1 →
      s1.allow_limit_break = s.allow_limit_break ∧ s1.win_size = s.win_size) :
    ∀ (fuel : ℕ) (s : SchedState) (now : ℚ),
      (walkLoop step fuel s now).allow_limit_break = s.allow_limit_break ∧
      (walkLoop step fuel s now).win_size = s.win_size := by
  intro fuel
  induction fuel with
  | zero => intro s now; exact ⟨rfl, rfl⟩
  | succ n ih =>
    intro s now
    unfold walkLoop
    rcases h : step s now with _ | s1
    · exact ⟨rfl, rfl⟩
    · have h1 := hstep s now s1 h
      have h2 := ih s1 now
      exact ⟨h2.1.trans h1.1, h2.2.trans h1.2⟩

lemma walk_limit_pres (s : SchedState) (now : ℚ) :
    (walk_limit s now).allow_limit_break = s.allow_limit_break ∧
    (walk_limit s now).win_size = s.win_size :=
  walkLoop_pres limitWalkStep limitWalkStep_pres _ s now

lemma walk_r_limit_pres (s : SchedState) (now : ℚ) :
    (walk_r_limit s now).allow_limit_break = s.allow_limit_break ∧
    (walk_r_limit s now).win_size = s.win_size :=
  walkLoop_pres rLimitWalkStep rLimitWalkStep_pres _ s now

lemma walk_best_limit_pres (s : SchedState) (now : ℚ) :
    (walk_best_limit s now).allow_limit_break = s.allow_limit_break ∧
    (walk_best_limit s now).win_size = s.win_size :=
  walkLoop_pres bestLimitWalkStep bestLimitWalkStep_pres _ s now

lemma rule_resv_some (s : SchedState) (now : ℚ) (r : SchedState × NextReq)
    (h : rule_resv s now = some r) : r.2 = .returning .reservation := by
  unfold rule_resv at h
  rcases htf : heapTopFront s s.resv_heap with _ | ⟨cid, c, t⟩ <;> simp only [htf] at h
  · cases h
  · split_ifs at h with hcond
    injection h with h'
    rw [← h']

lemma rule_burst_some (s : SchedState) (r : SchedState × NextReq)
    (h : rule_burst s = some r) :
    ∃ cid c t, heapTopFront s s.burst_heap = some (cid, c, t) ∧
      ((c.b_counter : ℚ) < max c.resource 0) ∧ t.ready = true ∧ t.proportion.ltMax = true ∧
      r = (updateClient s cid (fun d => { d with b_counter := d.b_counter + 1 }),
           .returning .burst) := by
  unfold rule_burst at h
  rcases htf : heapTopFront s s.burst_heap with _ | ⟨cid, c, t⟩ <;> simp only [htf] at h
  · cases h
  · split_ifs at h with hcond
    injection h with h'
    exact ⟨cid, c, t, rfl, hcond.1, hcond.2.1, hcond.2.2, h'.symm⟩

lemma rule_deltar_some (s : SchedState) (r : SchedState × NextReq)
    (h : rule_deltar s = some r) :
    ∃ cid c t, heapTopFront s s.deltar_heap = some (cid, c, t) ∧
      ((c.deltar_counter : ℚ) < max (c.resource - c.info.reservation * s.win_size) 0) ∧
      t.ready = true ∧ t.proportion.ltMax = true ∧
      r = (updateClient s cid (fun d => { d with deltar_counter := d.deltar_counter + 1 }),
           .returning .deltar) := by
  unfold rule_deltar at h
  rcases htf : heapTopFront s s.deltar_heap with _ | ⟨cid, c, t⟩ <;> simp only [htf] at h
  · cases h
  · split_ifs at h with hcond
    injection h with h'
    exact ⟨cid, c, t, rfl, hcond.1, hcond.2.1, hcond.2.2, h'.symm⟩

lemma rule_best_some (s : SchedState) (r : SchedState × NextReq)
    (h : rule_best s = some r) : r.2 = .returning .best_effort := by
  unfold rule_best at h
  rcases htf : heapTopFront s s.best_heap with _ | ⟨cid, c, t⟩ <;> simp only [htf] at h
  · cases h
  · split_ifs at h with hcond
    injection h with h'
    rw [← h']

lemma next_call_result_not_ret (s : SchedState) :
    (next_call_result s).isReturning = false := by
  unfold next_call_result
  rcases heapTopFront s s.resv_heap with _ | ⟨_, _, t1⟩ <;>
    rcases heapTopFront s s.r_limit_heap with _ | ⟨_, _, t2⟩ <;>
      rcases heapTopFront s s.limit_heap with _ | ⟨_, _, t3⟩ <;>
        (dsimp only []; split <;> rfl)

/-- C6: with `allow_limit_break = false`, a `Returning(burst)` decision can
only arise from rule 3 with the dispatched top client satisfying
`b_counter < max(resource, 0)` (and ready, finite proportion), incrementing
exactly that client's `b_counter`; a `Returning(deltar)` decision can only
arise from rule 5 with
`deltar_counter < max(resource − reservation·win_size, 0)`, incrementing
`deltar_counter`.  No dispatch path bypasses these counters. -/
theorem c6_limit_break_off_budget (s : SchedState) (now : ℚ)
    (hlb : s.allow_limit_break = false) :
    ((dispatch_ladder s now).2 = .returning .burst →
      ∃ cid c t,
        heapTopFront (walk_limit s now) (walk_limit s now).burst_heap = some (cid, c, t) ∧
        ((c.b_counter : ℚ) < max c.resource 0) ∧ t.ready = true ∧ t.proportion.ltMax = true ∧
        (dispatch_ladder s now).1 =
          updateClient (walk_limit s now) cid
            (fun d => { d with b_counter := d.b_counter + 1 })) ∧
    ((dispatch_ladder s now).2 = .returning .deltar →
      ∃ cid c t,
        heapTopFront (walk_r_limit (walk_limit s now) now)
            (walk_r_limit (walk_limit s now) now).deltar_heap = some (cid, c, t) ∧
        ((c.deltar_counter : ℚ) < max (c.resource - c.info.reservation * s.win_size) 0) ∧
        t.ready = true ∧ t.proportion.ltMax = true ∧
        (dispatch_ladder s now).1 =
          updateClient (walk_r_limit (walk_limit s now) now) cid
            (fun d => { d with deltar_counter := d.deltar_counter + 1 })) := by
  rcases h1 : rule_resv s now with _ | r1
  · rcases h3 : rule_burst (walk_limit s now) with _ | r3
    · rcases h5 : rule_deltar (walk_r_limit (walk_limit s now) now) with _ | r5
      · rcases h7 : rule_best (walk_best_limit (walk_r_limit (walk_limit s now) now) now)
          with _ | r7
        · have hlb3 : (walk_best_limit (walk_r_limit (walk_limit s now) now)
              now).allow_limit_break = false := by
            rw [(walk_best_limit_pres _ _).1, (walk_r_limit_pres _ _).1,
              (walk_limit_pres _ _).1, hlb]
          have hd : dispatch_ladder s now =
              (walk_best_limit (walk_r_limit (walk_limit s now) now) now,
               next_call_result (walk_best_limit (walk_r_limit (walk_limit s now) now) now)) := by
            simp only [dispatch_ladder, h1, h3, h5, h7, hlb3]
            simp
          have hnr := next_call_result_not_ret
            (walk_best_limit (walk_r_limit (walk_limit s now) now) now)
          constructor <;> intro h
          all_goals
            rw [hd] at h
            dsimp only at h
            rw [h] at hnr
            simp [NextReq.isReturning] at hnr
        · have hd : dispatch_ladder s now = r7 := by
            simp only [dispatch_ladder, h1, h3, h5, h7]
          have h7' := rule_best_some _ _ h7
          constructor <;> intro h <;> rw [hd, h7'] at h <;> simp at h
      · have hd : dispatch_ladder s now = r5 := by
          simp only [dispatch_ladder, h1, h3, h5]
        obtain ⟨cid, c, t, htf, hcnt, hrdy, hpm, hr5⟩ := rule_deltar_some _ _ h5
        constructor
        · intro h
          rw [hd, hr5] at h
          simp at h
        · intro h
          have hws : (walk_r_limit (walk_limit s now) now).win_size = s.win_size := by
            rw [(walk_r_limit_pres _ _).2, (walk_limit_pres _ _).2]
          rw [hws] at hcnt
          exact ⟨cid, c, t, htf, hcnt, hrdy, hpm, by rw [hd, hr5]⟩
    · have hd : dispatch_ladder s now = r3 := by
        simp only [dispatch_ladder, h1, h3]
      obtain ⟨cid, c, t, htf, hcnt, hrdy, hpm, hr3⟩ := rule_burst_some _ _ h3
      constructor
      · intro h
        exact ⟨cid, c, t, htf, hcnt, hrdy, hpm, by rw [hd, hr3]⟩
      · intro h
        rw [hd, hr3] at h
        simp at h
  · have hd : dispatch_ladder s now = r1 := by
      simp only [dispatch_ladder, h1]
    have h1' := rule_resv_some _ _ _ h1
    constructor <;> intro h <;> rw [hd, h1'] at h <;> simp at h

def c6w_tag : RequestTag := ⟨.posInf, .fin 1, .fin 0, true, 0⟩

def c6w_client : Client :=
  { id := 0, info := ⟨0, 1, 10, .B⟩, prop_delta := 0, requests := [c6w_tag], resource := 5,
    b_counter := 0, b_break_limit_counter := 0, deltar_counter := 0,
    deltar_break_limit_counter := 0, r0_counter := 0, r0_break_limit_counter := 0,
    be_counter := 0, be_break_limit_counter := 0, r_compensation := 0, last_tick := 0,
    idle := false }

def c6w_state : SchedState :=
  { clients := [c6w_client], resv_heap := [], deltar_heap := [], r_limit_heap := [],
    limit_heap := [0], burst_heap := [0], best_heap := [], best_limit_heap := [],
    allow_limit_break := false, win_start := 0, win_size := 30, tick := 0, mark_points := [] }

/-- Witness for C6 at a concrete burst dispatch. -/
theorem c6_limit_break_off_budget_witness :
    ∃ cid c t,
      heapTopFront (walk_limit c6w_state 10) (walk_limit c6w_state 10).burst_heap =
        some (cid, c, t) ∧
      ((c.b_counter : ℚ) < max c.resource 0) ∧ t.ready = true ∧ t.proportion.ltMax = true ∧
      (dispatch_ladder c6w_state 10).1 =
        updateClient (walk_limit c6w_state 10) cid
          (fun d => { d with b_counter := d.b_counter + 1 }) :=
  (c6_limit_break_off_budget c6w_state 10 rfl).1 (by
    norm_num [dispatch_ladder, rule_resv, rule_burst, heapTopFront, lookupClient, walk_limit,
      walkLoop, limitWalkStep, c6w_state, c6w_client, c6w_tag, TagVal.ltMax, TagVal.leTime])

/-- Guard of the burst limit-break attempt: top of `burst_heap` has a request
with a finite proportion tag. -/
def breakCondBurst (s : SchedState) : Bool :=
  match heapTopFront s s.burst_heap with
  | some (_, _, t) => t.proportion.ltMax
  | none => false

/-- Guard of the best-effort limit-break attempt. -/
def breakCondBest (s : SchedState) : Bool :=
  match heapTopFront s s.best_heap with
  | some (_, _, t) => t.proportion.ltMax
  | none => false

/-- Guard of the deltar limit-break attempt. -/
def breakCondDeltar (s : SchedState) : Bool :=
  match heapTopFront s s.deltar_heap with
  | some (_, _, t) => t.proportion.ltMax
  | none => false

lemma break_burst_eq_none (s : SchedState) (h : breakCondBurst s = false) :
    break_burst s = none := by
  unfold breakCondBurst at h
  unfold break_burst
  rcases htf : heapTopFront s s.burst_heap with _ | ⟨cid, c, t⟩ <;> simp only [htf] at h ⊢
  simp [h]

lemma break_best_eq_none (s : SchedState) (h : breakCondBest s = false) :
    break_best s = none := by
  unfold breakCondBest at h
  unfold break_best
  rcases htf : heapTopFront s s.best_heap with _ | ⟨cid, c, t⟩ <;> simp only [htf] at h ⊢
  simp [h]

lemma break_deltar_eq_none (s : SchedState) (h : breakCondDeltar s = false) :
    break_deltar s = none := by
  unfold breakCondDeltar at h
  unfold break_deltar
  rcases htf : heapTopFront s s.deltar_heap with _ | ⟨cid, c, t⟩ <;> simp only [htf] at h ⊢
  simp [h]

lemma break_burst_fire (s : SchedState) (cid : ℕ) (c : Client) (t : RequestTag)
    (htf : heapTopFront s s.burst_heap = some (cid, c, t)) (hp : t.proportion.ltMax = true) :
    break_burst s =
      some (updateClient s cid
              (fun d => { d with b_break_limit_counter := d.b_break_limit_counter + 1 }),
            .returning .burst) := by
  simp only [break_burst, htf, hp, if_true]

lemma break_best_fire (s : SchedState) (cid : ℕ) (c : Client) (t : RequestTag)
    (htf : heapTopFront s s.best_heap = some (cid, c, t)) (hp : t.proportion.ltMax = true) :
    break_best s =
      some (updateClient s cid
              (fun d => { d with be_break_limit_counter := d.be_break_limit_counter + 1 }),
            .returning .best_effort) := by
  simp only [break_best, htf, hp, if_true]

lemma break_deltar_fire (s : SchedState) (cid : ℕ) (c : Client) (t : RequestTag)
    (htf : heapTopFront s s.deltar_heap = some (cid, c, t)) (hp : t.proportion.ltMax = true) :
    break_deltar s =
      some (updateClient s cid
              (fun d => { d with deltar_break_limit_counter := d.deltar_break_limit_counter + 1 }),
            .returning .deltar) := by
  simp only [break_deltar, htf, hp, if_true]

lemma break_resv_fire (s : SchedState) (cid : ℕ) (c : Client) (t : RequestTag)
    (htf : heapTopFront s s.resv_heap = some (cid, c, t)) (hp : t.reservation.ltMax = true) :
    break_resv s =
      some (updateClient s cid
              (fun d => { d with r0_break_limit_counter := d.r0_break_limit_counter + 1 }),
            .returning .reservation) := by
  simp only [break_resv, htf, hp, if_true]

/-- C7: when `allow_limit_break` is set and rules 1–7 all fail, the
limit-break stage tries `burst_heap`, then `best_heap`, then `deltar_heap`,
then `resv_heap`, in that order; the first whose top client has a request
with `proportion < +∞` (`reservation < +∞` for the `resv_heap` case) is
dispatched and its matching `*_break_limit_counter` is incremented. -/
theorem c7_limit_break_order (s : SchedState) (now : ℚ)
    (hlb : s.allow_limit_break = true)
    (h1 : rule_resv s now = none)
    (h3 : rule_burst (walk_limit s now) = none)
    (h5 : rule_deltar (walk_r_limit (walk_limit s now) now) = none)
    (h7 : rule_best (walk_best_limit (walk_r_limit (walk_limit s now) now) now) = none) :
    (∀ cid c t,
      heapTopFront (walk_best_limit (walk_r_limit (walk_limit s now) now) now)
          (walk_best_limit (walk_r_limit (walk_limit s now) now) now).burst_heap =
        some (cid, c, t) →
      t.proportion.ltMax = true →
      dispatch_ladder s now =
        (updateClient (walk_best_limit (walk_r_limit (walk_limit s now) now) now) cid
          (fun d => { d with b_break_limit_counter := d.b_break_limit_counter + 1 }),
         .returning .burst)) ∧
    (breakCondBurst (walk_best_limit (walk_r_limit (walk_limit s now) now) now) = false →
      ∀ cid c t,
      heapTopFront (walk_best_limit (walk_r_limit (walk_limit s now) now) now)
          (walk_best_limit (walk_r_limit (walk_limit s now) now) now).best_heap =
        some (cid, c, t) →
      t.proportion.ltMax = true →
      dispatch_ladder s now =
        (updateClient (walk_best_limit (walk_r_limit (walk_limit s now) now) now) cid
          (fun d => { d with be_break_limit_counter := d.be_break_limit_counter + 1 }),
         .returning .best_effort)) ∧
    (breakCondBurst (walk_best_limit (walk_r_limit (walk_limit s now) now) now) = false →
      breakCondBest (walk_best_limit (walk_r_limit (walk_limit s now) now) now) = false →
      ∀ cid c t,
      heapTopFront (walk_best_limit (walk_r_limit (walk_limit s now) now) now)
          (walk_best_limit (walk_r_limit (walk_limit s now) now) now).deltar_heap =
        some (cid, c, t) →
      t.proportion.ltMax = true →
      dispatch_ladder s now =
        (updateClient (walk_best_limit (walk_r_limit (walk_limit s now) now) now) cid
          (fun d => { d with deltar_break_limit_counter := d.deltar_break_limit_counter + 1 }),
         .returning .deltar)) ∧
    (breakCondBurst (walk_best_limit (walk_r_limit (walk_limit s now) now) now) = false →
      breakCondBest (walk_best_limit (walk_r_limit (walk_limit s now) now) now) = false →
      breakCondDeltar (walk_best_limit (walk_r_limit (walk_limit s now) now) now) = false →
      ∀ cid c t,
      heapTopFront (walk_best_limit (walk_r_limit (walk_limit s now) now) now)
          (walk_best_limit (walk_r_limit (walk_limit s now) now) now).resv_heap =
        some (cid, c, t) →
      t.reservation.ltMax = true →
      dispatch_ladder s now =
        (updateClient (walk_best_limit (walk_r_limit (walk_limit s now) now) now) cid
          (fun d => { d with r0_break_limit_counter := d.r0_break_limit_counter + 1 }),
         .returning .reservation)) := by
  have hlb3 : (walk_best_limit (walk_r_limit (walk_limit s now) now) now).allow_limit_break
      = true := by
    rw [(walk_best_limit_pres _ _).1, (walk_r_limit_pres _ _).1, (walk_limit_pres _ _).1, hlb]
  have hd0 : dispatch_ladder s now =
      (match break_chain (walk_best_limit (walk_r_limit (walk_limit s now) now) now) with
       | some r => r
       | none =>
         (walk_best_limit (walk_r_limit (walk_limit s now) now) now,
          next_call_result (walk_best_limit (walk_r_limit (walk_limit s now) now) now))) := by
    simp only [dispatch_ladder, h1, h3, h5, h7, hlb3, if_true]
  refine ⟨?_, ?_, ?_, ?_⟩
  · intro cid c t htf hp
    rw [hd0]
    unfold break_chain
    rw [break_burst_fire _ cid c t htf hp]
  · intro hcb cid c t htf hp
    rw [hd0]
    unfold break_chain
    rw [break_burst_eq_none _ hcb, break_best_fire _ cid c t htf hp]
  · intro hcb hce cid c t htf hp
    rw [hd0]
    unfold break_chain
    rw [break_burst_eq_none _ hcb, break_best_eq_none _ hce,
      break_deltar_fire _ cid c t htf hp]
  · intro hcb hce hcd cid c t htf hp
    rw [hd0]
    unfold break_chain
    rw [break_burst_eq_none _ hcb, break_best_eq_none _ hce, break_deltar_eq_none _ hcd,
      break_resv_fire _ cid c t htf hp]

def c7w_tag : RequestTag := ⟨.posInf, .fin 1, .fin 100, false, 0⟩

def c7w_client : Client :=
  { id := 0, info := ⟨0, 1, 10, .B⟩, prop_delta := 0, requests := [c7w_tag], resource := 5,
    b_counter := 0, b_break_limit_counter := 0, deltar_counter := 0,
    deltar_break_limit_counter := 0, r0_counter := 0, r0_break_limit_counter := 0,
    be_counter := 0, be_break_limit_counter := 0, r_compensation := 0, last_tick := 0,
    idle := false }

def c7w_state : SchedState :=
  { clients := [c7w_client], resv_heap := [], deltar_heap := [], r_limit_heap := [],
    limit_heap := [0], burst_heap := [0], best_heap := [], best_limit_heap := [],
    allow_limit_break := true, win_start := 0, win_size := 30, tick := 0, mark_points := [] }

/-- Witness for C7: a burst-heap limit break at a concrete state. -/
theorem c7_limit_break_order_witness :
    dispatch_ladder c7w_state 10 =
      (updateClient (walk_best_limit (walk_r_limit (walk_limit c7w_state 10) 10) 10) 0
        (fun d => { d with b_break_limit_counter := d.b_break_limit_counter + 1 }),
       .returning .burst) :=
  (c7_limit_break_order c7w_state 10 rfl rfl
      (by norm_num [rule_burst, walk_limit, walkLoop, limitWalkStep, heapTopFront,
        lookupClient, c7w_state, c7w_client, c7w_tag, TagVal.leTime, TagVal.ltMax])
      (by norm_num [rule_deltar, walk_r_limit, walk_limit, walkLoop, limitWalkStep,
        rLimitWalkStep, heapTopFront, lookupClient, c7w_state, c7w_client, c7w_tag,
        TagVal.leTime, TagVal.ltMax])
      (by norm_num [rule_best, walk_best_limit, walk_r_limit, walk_limit, walkLoop,
        limitWalkStep, rLimitWalkStep, bestLimitWalkStep, heapTopFront, lookupClient,
        c7w_state, c7w_client, c7w_tag, TagVal.leTime, TagVal.ltMax])).1
    0 c7w_client c7w_tag
    (by norm_num [walk_best_limit, walk_r_limit, walk_limit, walkLoop, limitWalkStep,
      rLimitWalkStep, bestLimitWalkStep, heapTopFront, lookupClient, c7w_state, c7w_client,
      c7w_tag, TagVal.leTime, TagVal.ltMax])
    rfl

lemma break_burst_ret (s : SchedState) (r : SchedState × NextReq)
    (h : break_burst s = some r) : r.2.isReturning = true := by
  unfold break_burst at h
  rcases htf : heapTopFront s s.burst_heap with _ | ⟨cid, c, t⟩ <;> simp only [htf] at h
  · cases h
  · split_ifs at h with hc
    injection h with h'
    rw [← h']
    rfl

lemma break_best_ret (s : SchedState) (r : SchedState × NextReq)
    (h : break_best s = some r) : r.2.isReturning = true := by
  unfold break_best at h
  rcases htf : heapTopFront s s.best_heap with _ | ⟨cid, c, t⟩ <;> simp only [htf] at h
  · cases h
  · split_ifs at h with hc
    injection h with h'
    rw [← h']
    rfl

lemma break_deltar_ret (s : SchedState) (r : SchedState × NextReq)
    (h : break_deltar s = some r) : r.2.isReturning = true := by
  unfold break_deltar at h
  rcases htf : heapTopFront s s.deltar_heap with _ | ⟨cid, c, t⟩ <;> simp only [htf] at h
  · cases h
  · split_ifs at h with hc
    injection h with h'
    rw [← h']
    rfl

lemma break_resv_ret (s : SchedState) (r : SchedState × NextReq)
    (h : break_resv s = some r) : r.2.isReturning = true := by
  unfold break_resv at h
  rcases htf : heapTopFront s s.resv_heap with _ | ⟨cid, c, t⟩ <;> simp only [htf] at h
  · cases h
  · split_ifs at h with hc
    injection h with h'
    rw [← h']
    rfl

lemma break_chain_ret (s : SchedState) (r : SchedState × NextReq)
    (h : break_chain s = some r) : r.2.isReturning = true := by
  unfold break_chain at h
  rcases hb : break_burst s with _ | rb <;> simp only [hb] at h
  · rcases hb2 : break_best s with _ | rb2 <;> simp only [hb2] at h
    · rcases hb3 : break_deltar s with _ | rb3 <;> simp only [hb3] at h
      · exact break_resv_ret _ _ h
      · injection h with h'
        rw [← h']
        exact break_deltar_ret _ _ hb3
    · injection h with h'
      rw [← h']
      exact break_best_ret _ _ hb2
  · injection h with h'
    rw [← h']
    exact break_burst_ret _ _ hb

/-- Modelled from the spec sentence for rule 9: `next_call` is the minimum —
ignoring values equal to `Time_zero` — over the top reservation tag of
`resv_heap`, the top limit tag of `r_limit_heap` and the top limit tag of
`limit_heap`, considering only tops with a pending request; the result is
`Future(next_call)` when the minimum is below the `TimeMax` sentinel and
`None` otherwise.  The limit tags of `best_limit_heap` are not candidates. -/
def next_call_spec (s : SchedState) : NextReq :=
  let cands : List TagVal :=
    ((heapTopFront s s.resv_heap).map (fun x => x.2.2.reservation)).toList ++
    ((heapTopFront s s.r_limit_heap).map (fun x => x.2.2.limit)).toList ++
    ((heapTopFront s s.limit_heap).map (fun x => x.2.2.limit)).toList
  let nc := (cands.filter (fun v => v ≠ .fin 0)).foldl TagVal.minT .posInf
  if nc.blt .posInf then .future nc else .none

lemma min_not_0_time_eq (cur p : TagVal) :
    min_not_0_time cur p = if p ≠ .fin 0 then TagVal.minT cur p else cur := by
  unfold min_not_0_time
  by_cases h : p = .fin 0 <;> simp [h]

lemma next_call_result_eq_spec (s : SchedState) :
    next_call_result s = next_call_spec s := by
  unfold next_call_result next_call_spec
  rcases heapTopFront s s.resv_heap with _ | ⟨_, _, t1⟩ <;>
    rcases heapTopFront s s.r_limit_heap with _ | ⟨_, _, t2⟩ <;>
      rcases heapTopFront s s.limit_heap with _ | ⟨_, _, t3⟩ <;>
        simp only [min_not_0_time_eq, Option.map_some', Option.map_none', Option.toList_some,
          Option.toList_none, List.append_nil, List.nil_append, List.append_assoc,
          List.filter, List.foldl] <;>
        repeat' split <;> simp_all

/-- C8: when no dispatch rule fires, `next_request` computes the
`Future`/`None` answer exactly as `next_call_spec` describes: the minimum —
ignoring `Time_zero` values — over the top reservation tag of `resv_heap`
and the top limit tags of `r_limit_heap` and `limit_heap` (tops with a
pending request only); `Future` if it is below the `TimeMax` sentinel, else
`None`.  The `best_limit_heap` limit tags of A/O clients are not
candidates. -/
theorem c8_future_from_three_heaps (s : SchedState) (now : ℚ)
    (h : (dispatch_ladder s now).2.isReturning = false) :
    dispatch_ladder s now =
      (walk_best_limit (walk_r_limit (walk_limit s now) now) now,
       next_call_spec (walk_best_limit (walk_r_limit (walk_limit s now) now) now)) := by
  rcases h1 : rule_resv s now with _ | r1
  · rcases h3 : rule_burst (walk_limit s now) with _ | r3
    · rcases h5 : rule_deltar (walk_r_limit (walk_limit s now) now) with _ | r5
      · rcases h7 : rule_best (walk_best_limit (walk_r_limit (walk_limit s now) now) now)
          with _ | r7
        · by_cases hlb3 : (walk_best_limit (walk_r_limit (walk_limit s now) now)
              now).allow_limit_break = true
          · rcases hbc : break_chain (walk_best_limit (walk_r_limit (walk_limit s now) now) now)
              with _ | rb
            · have hd : dispatch_ladder s now =
                  (walk_best_limit (walk_r_limit (walk_limit s now) now) now,
                   next_call_result (walk_best_limit (walk_r_limit (walk_limit s now) now)
                     now)) := by
                simp only [dispatch_ladder, h1, h3, h5, h7, hlb3, if_true, hbc]
              rw [hd, next_call_result_eq_spec]
            · have hd : dispatch_ladder s now = rb := by
                simp only [dispatch_ladder, h1, h3, h5, h7, hlb3, if_true, hbc]
              rw [hd] at h
              rw [break_chain_ret _ _ hbc] at h
              cases h
          · have hlb3' : (walk_best_limit (walk_r_limit (walk_limit s now) now)
                now).allow_limit_break = false := by
              cases hb : (walk_best_limit (walk_r_limit (walk_limit s now) now)
                  now).allow_limit_break
              · rfl
              · exact absurd hb hlb3
            have hd : dispatch_ladder s now =
                (walk_best_limit (walk_r_limit (walk_limit s now) now) now,
                 next_call_result (walk_best_limit (walk_r_limit (walk_limit s now) now)
                   now)) := by
              simp only [dispatch_ladder, h1, h3, h5, h7, hlb3']
              simp
            rw [hd, next_call_result_eq_spec]
        · have hd : dispatch_ladder s now = r7 := by
            simp only [dispatch_ladder, h1, h3, h5, h7]
          rw [hd, rule_best_some _ _ h7] at h
          cases h
      · have hd : dispatch_ladder s now = r5 := by
          simp only [dispatch_ladder, h1, h3, h5]
        obtain ⟨cid, c, t, htf, hcnt, hrdy, hpm, hr5⟩ := rule_deltar_some _ _ h5
        rw [hd, hr5] at h
        simp [NextReq.isReturning] at h
    · have hd : dispatch_ladder s now = r3 := by
        simp only [dispatch_ladder, h1, h3]
      obtain ⟨cid, c, t, htf, hcnt, hrdy, hpm, hr3⟩ := rule_burst_some _ _ h3
      rw [hd, hr3] at h
      simp [NextReq.isReturning] at h
  · have hd : dispatch_ladder s now = r1 := by
      simp only [dispatch_ladder, h1]
    rw [hd, rule_resv_some _ _ _ h1] at h
    cases h

def c8w_state : SchedState :=
  { clients := [c7w_client], resv_heap := [], deltar_heap := [], r_limit_heap := [],
    limit_heap := [0], burst_heap := [0], best_heap := [], best_limit_heap := [],
    allow_limit_break := false, win_start := 0, win_size := 30, tick := 0, mark_points := [] }

/-- Witness for C8 at a concrete state with a finite limit-tag candidate. -/
theorem c8_future_from_three_heaps_witness :
    dispatch_ladder c8w_state 10 =
      (walk_best_limit (walk_r_limit (walk_limit c8w_state 10) 10) 10,
       next_call_spec (walk_best_limit (walk_r_limit (walk_limit c8w_state 10) 10) 10)) ∧
    (dispatch_ladder c8w_state 10).2 = .future (.fin 100) := by
  have hmain := c8_future_from_three_heaps c8w_state 10 (by
    norm_num [dispatch_ladder, rule_resv, rule_burst, rule_deltar, rule_best, walk_limit,
      walk_r_limit, walk_best_limit, walkLoop, limitWalkStep, rLimitWalkStep,
      bestLimitWalkStep, heapTopFront, lookupClient, next_call_result, min_not_0_time,
      TagVal.minT, TagVal.blt, NextReq.isReturning, c8w_state, c7w_client, c7w_tag,
      TagVal.leTime, TagVal.ltMax])
  refine ⟨hmain, ?_⟩
  rw [hmain]
  norm_num [next_call_spec, walk_best_limit, walk_r_limit, walk_limit, walkLoop,
    limitWalkStep, rLimitWalkStep, bestLimitWalkStep, heapTopFront, lookupClient,
    TagVal.minT, TagVal.blt, min_not_0_time, c8w_state, c7w_client, c7w_tag,
    TagVal.leTime, TagVal.ltMax]

/-- The client is in none of the heaps its class lives in. -/
def notInClassHeaps (s : SchedState) (c : Client) : Prop :=
  match c.info.client_type with
  | .R => c.id ∉ s.resv_heap ∧ c.id ∉ s.deltar_heap ∧ c.id ∉ s.r_limit_heap
  | .B => c.id ∉ s.limit_heap ∧ c.id ∉ s.burst_heap
  | _ => c.id ∉ s.best_heap ∧ c.id ∉ s.best_limit_heap

lemma delete_from_heaps_subset (s : SchedState) (d : Client) :
    (delete_from_heaps s d).resv_heap ⊆ s.resv_heap ∧
    (delete_from_heaps s d).deltar_heap ⊆ s.deltar_heap ∧
    (delete_from_heaps s d).r_limit_heap ⊆ s.r_limit_heap ∧
    (delete_from_heaps s d).limit_heap ⊆ s.limit_heap ∧
    (delete_from_heaps s d).burst_heap ⊆ s.burst_heap ∧
    (delete_from_heaps s d).best_heap ⊆ s.best_heap ∧
    (delete_from_heaps s d).best_limit_heap ⊆ s.best_limit_heap := by
  unfold delete_from_heaps removeFromHeap
  cases d.info.client_type <;>
    refine ⟨?_, ?_, ?_, ?_, ?_, ?_, ?_⟩ <;>
      first
        | exact fun x hx => hx
        | exact fun x hx => (List.mem_filter.mp hx).1

lemma foldl_delete_subset (l : List Client) :
    ∀ s : SchedState,
      (l.foldl delete_from_heaps s).resv_heap ⊆ s.resv_heap ∧
      (l.foldl delete_from_heaps s).deltar_heap ⊆ s.deltar_heap ∧
      (l.foldl delete_from_heaps s).r_limit_heap ⊆ s.r_limit_heap ∧
      (l.foldl delete_from_heaps s).limit_heap ⊆ s.limit_heap ∧
      (l.foldl delete_from_heaps s).burst_heap ⊆ s.burst_heap ∧
      (l.foldl delete_from_heaps s).best_heap ⊆ s.best_heap ∧
      (l.foldl delete_from_heaps s).best_limit_heap ⊆ s.best_limit_heap := by
  induction l with
  | nil =>
    intro s
    exact ⟨fun x hx => hx, fun x hx => hx, fun x hx => hx, fun x hx => hx,
      fun x hx => hx, fun x hx => hx, fun x hx => hx⟩
  | cons a l ih =>
    intro s
    have h1 := delete_from_heaps_subset s a
    have h2 := ih (delete_from_heaps s a)
    exact ⟨h2.1.trans h1.1, h2.2.1.trans h1.2.1, h2.2.2.1.trans h1.2.2.1,
      h2.2.2.2.1.trans h1.2.2.2.1, h2.2.2.2.2.1.trans h1.2.2.2.2.1,
      h2.2.2.2.2.2.1.trans h1.2.2.2.2.2.1, h2.2.2.2.2.2.2.trans h1.2.2.2.2.2.2⟩

lemma delete_from_heaps_self (s : SchedState) (c : Client) :
    notInClassHeaps (delete_from_heaps s c) c := by
  cases hty : c.info.client_type <;>
    simp [notInClassHeaps, delete_from_heaps, removeFromHeap, hty]

lemma notInClassHeaps_of_foldl (l : List Client) (s : SchedState) (c : Client)
    (h : notInClassHeaps s c) : notInClassHeaps (l.foldl delete_from_heaps s) c := by
  have hsub := foldl_delete_subset l s
  cases hty : c.info.client_type <;>
    simp only [notInClassHeaps, hty] at h ⊢
  · exact ⟨fun hm => h.1 (hsub.1 hm), fun hm => h.2.1 (hsub.2.1 hm),
      fun hm => h.2.2 (hsub.2.2.1 hm)⟩
  · exact ⟨fun hm => h.1 (hsub.2.2.2.1 hm), fun hm => h.2 (hsub.2.2.2.2.1 hm)⟩
  · exact ⟨fun hm => h.1 (hsub.2.2.2.2.2.1 hm), fun hm => h.2 (hsub.2.2.2.2.2.2 hm)⟩
  · exact ⟨fun hm => h.1 (hsub.2.2.2.2.2.1 hm), fun hm => h.2 (hsub.2.2.2.2.2.2 hm)⟩

lemma foldl_delete_erases (l : List Client) :
    ∀ (s : SchedState) (c : Client), c ∈ l →
      notInClassHeaps (l.foldl delete_from_heaps s) c := by
  induction l with
  | nil => intro s c hc; cases hc
  | cons a l ih =>
    intro s c hc
    rcases List.mem_cons.mp hc with rfl | hc
    · exact notInClassHeaps_of_foldl l _ c (delete_from_heaps_self s c)
    · exact ih (delete_from_heaps s a) c hc

lemma cleanKeep_some (ep ip : ℕ) (a d : Client) (h : cleanKeep ep ip a = some d) :
    d.id = a.id ∧ d.requests = a.requests ∧ erasedByClean ep a = false := by
  unfold cleanKeep at h
  split_ifs at h with h1 h2
  · injection h with h'
    subst h'
    exact ⟨rfl, rfl, Bool.eq_false_iff.mpr h1⟩
  · injection h with h'
    subst h'
    exact ⟨rfl, rfl, Bool.eq_false_iff.mpr h1⟩

lemma cleanKeep_none_of_erased (ep ip : ℕ) (a : Client)
    (h : erasedByClean ep a = true) : cleanKeep ep ip a = none := by
  unfold cleanKeep
  rw [if_pos h]

lemma cleanKeep_sum (ep ip : ℕ) (l : List Client) :
    ((l.filterMap (cleanKeep ep ip)).map (fun d => d.requests.length)).sum +
      ((l.filter (erasedByClean ep)).map (fun d => d.requests.length)).sum =
    (l.map (fun d => d.requests.length)).sum := by
  induction l with
  | nil => rfl
  | cons a l ih =>
    by_cases ha : erasedByClean ep a = true
    · simp only [List.filterMap_cons, cleanKeep_none_of_erased ep ip a ha,
        List.filter_cons, ha, if_true, List.map_cons, List.sum_cons]
      omega
    · have ha' : erasedByClean ep a = false := Bool.eq_false_iff.mpr ha
      have hex : ∃ d, cleanKeep ep ip a = some d ∧ d.requests.length = a.requests.length := by
        unfold cleanKeep
        rw [if_neg (by rw [ha']; exact Bool.false_ne_true)]
        split_ifs
        · exact ⟨_, rfl, rfl⟩
        · exact ⟨_, rfl, rfl⟩
      obtain ⟨d, hd, hlen⟩ := hex
      simp only [List.filterMap_cons, hd, List.filter_cons, ha', if_false,
        Bool.false_eq_true, List.map_cons, List.sum_cons, hlen]
      omega

/-- C10: every client whose `last_tick` is at or before the positive erase
point of a `do_clean` pass is removed from the client map and from every
heap of its class, even with requests still queued; the scheduler's total
request count drops by exactly the summed FIFO sizes of the erased clients,
this client's FIFO included. -/
theorem c10_clean_erases_pending (erase_age idle_age now : ℚ) (s : SchedState) (c : Client)
    (hmem : c ∈ s.clients)
    (hnodup : (s.clients.map (fun d => d.id)).Nodup)
    (hep : 0 < cleanEp erase_age now s)
    (hlast : c.last_tick ≤ cleanEp erase_age now s) :
    lookupClient (do_clean erase_age idle_age now s) c.id = none ∧
    notInClassHeaps (do_clean erase_age idle_age now s) c ∧
    c ∈ s.clients.filter (erasedByClean (cleanEp erase_age now s)) ∧
    total_requests (do_clean erase_age idle_age now s) +
      ((s.clients.filter (erasedByClean (cleanEp erase_age now s))).map
        (fun d => d.requests.length)).sum = total_requests s := by
  have herased : erasedByClean (cleanEp erase_age now s) c = true := by
    unfold erasedByClean
    rw [Bool.and_eq_true]
    exact ⟨bne_iff_ne.mpr (Nat.pos_iff_ne_zero.mp hep), decide_eq_true hlast⟩
  have hds : do_clean erase_age idle_age now s =
      { (({ s with mark_points := cleanMks erase_age now s } : SchedState).clients.filter
            (erasedByClean (cleanEp erase_age now s))).foldl delete_from_heaps
            { s with mark_points := cleanMks erase_age now s } with
        clients := ({ s with mark_points := cleanMks erase_age now s } : SchedState).clients.filterMap
          (cleanKeep (cleanEp erase_age now s) (cleanIp erase_age idle_age now s)) } := by
    simp only [do_clean]
    rw [if_pos (Or.inl hep)]
  have hmem1 : c ∈ ({ s with mark_points := cleanMks erase_age now s } : SchedState).clients.filter
      (erasedByClean (cleanEp erase_age now s)) :=
    List.mem_filter.mpr ⟨hmem, herased⟩
  refine ⟨?_, ?_, List.mem_filter.mpr ⟨hmem, herased⟩, ?_⟩
  · unfold lookupClient
    rw [hds]
    apply List.find?_eq_none.mpr
    intro d hd
    rw [List.mem_filterMap] at hd
    obtain ⟨a, ha, hfa⟩ := hd
    obtain ⟨hid, _, hne⟩ := cleanKeep_some _ _ _ _ hfa
    intro hbeq
    have hdc : d.id = c.id := by simpa using hbeq
    have hac : a.id = c.id := hid ▸ hdc
    have hac2 : a = c := List.inj_on_of_nodup_map hnodup ha hmem hac
    rw [hac2, herased] at hne
    cases hne
  · rw [hds]
    exact foldl_delete_erases _ _ c hmem1
  · unfold total_requests
    rw [hds]
    exact cleanKeep_sum _ _ s.clients

def c10w_tag : RequestTag := ⟨.fin 1, .posInf, .fin 1, false, 0⟩

def c10w_client : Client :=
  { id := 0, info := ⟨10, 0, 10, .R⟩, prop_delta := 0, requests := [c10w_tag, c10w_tag],
    resource := 0, b_counter := 0, b_break_limit_counter := 0, deltar_counter := 0,
    deltar_break_limit_counter := 0, r0_counter := 0, r0_break_limit_counter := 0,
    be_counter := 0, be_break_limit_counter := 0, r_compensation := 0, last_tick := 3,
    idle := false }

def c10w_state : SchedState :=
  { clients := [c10w_client], resv_heap := [0], deltar_heap := [0], r_limit_heap := [0],
    limit_heap := [], burst_heap := [], best_heap := [], best_limit_heap := [],
    allow_limit_break := false, win_start := 0, win_size := 30, tick := 7,
    mark_points := [(0, 5)] }

/-- Witness for C10: a concrete erased client with two queued requests. -/
theorem c10_clean_erases_pending_witness :
    lookupClient (do_clean 10 5 100 c10w_state) c10w_client.id = none ∧
    notInClassHeaps (do_clean 10 5 100 c10w_state) c10w_client ∧
    c10w_client ∈ c10w_state.clients.filter (erasedByClean (cleanEp 10 100 c10w_state)) ∧
    total_requests (do_clean 10 5 100 c10w_state) +
      ((c10w_state.clients.filter (erasedByClean (cleanEp 10 100 c10w_state))).map
        (fun d => d.requests.length)).sum = total_requests c10w_state :=
  c10_clean_erases_pending 10 5 100 c10w_state c10w_client (by simp [c10w_state])
    (by simp [c10w_state]) (by norm_num [cleanEp, erase_point_loop, c10w_state])
    (by norm_num [cleanEp, erase_point_loop, c10w_state, c10w_client])
